import Mathlib

/-!
Shallow embedding of `calcMetrics` from `scripts/checkPrecisionRecall.py`
(HEARTS repository) and verification of the specification's claims about it.

Modelling decisions:
* Candidate identifiers live in an arbitrary type `α` with decidable
  equality; query identifiers live in `Q`.  Python dicts become association
  lists (a Python dict iterates its entries in insertion order and has
  distinct keys).
* Python floats are modelled as exact rationals `ℚ`.  Rational division by
  zero yields `0` in Lean, which coincides with the source's behaviour at
  the one reachable 0/0 site (`np.nan_to_num` turning the NaN from
  `0/0` in the F1 formula into `0`; the operands there are non-negative, so
  a zero denominator forces a zero numerator).
* Fallible operations — list indexing that can raise `IndexError`, the
  `range` call that can raise `ValueError` on a zero step — return
  `Option`, with `none` standing for the raised exception.
-/

namespace CheckPrecisionRecall

variable {Q α : Type} [DecidableEq Q] [DecidableEq α]

/-- Association-list lookup, modelling `groundtruth[query_id]` /
`query_id in groundtruth` on a Python dict. -/
def lookupQ : List (Q × β) → Q → Option β
  | [], _ => none
  | (a, b) :: rest, q => if a = q then some b else lookupQ rest q

/-- `len(set(cur).intersection(set(gtList)))`: the number of distinct
elements of `cur` that belong to `gtList`. -/
def interCount (cur gtList : List α) : Nat :=
  (cur.dedup.filter (· ∈ gtList)).length

/-- The inner AP loop of `calcMetrics`
(`for i in range(1, k+1): if current_results[i-1] in gt_set: ...`),
iterating over the 0-based indices it touches.  The accumulator is
`(ap_k, num_relevant_found)`; `none` models the `IndexError` raised when
`current_results[i-1]` is read past the end of the list. -/
def apLoopGo (cur gtList : List α) : List Nat → ℚ × Nat → Option (ℚ × Nat)
  | [], acc => some acc
  | i :: rest, acc =>
    match cur.get? i with
    | none => none
    | some x =>
      if x ∈ gtList then
        apLoopGo cur gtList rest (acc.1 + ((acc.2 + 1 : Nat) : ℚ) / ((i + 1 : Nat) : ℚ), acc.2 + 1)
      else
        apLoopGo cur gtList rest acc

/-- The AP walk over ranks `1..k` (0-based indices `0..k-1`), starting from
`ap_k = 0.0` and `num_relevant_found = 0`. -/
def apLoop (cur gtList : List α) (k : Nat) : Option (ℚ × Nat) :=
  apLoopGo cur gtList (List.range k) (0, 0)

/-- The body of `for k in range(1, max_k+1)` for one query and one cutoff
`k`: returns `(precision@k, recall@k, AP@k)`, or `none` when the AP loop
raises `IndexError`. -/
def queryStep (results gtList : List α) (k : Nat) : Option (ℚ × ℚ × ℚ) :=
  let current_results := results.take k
  let intersectLen := interCount current_results gtList
  let total_relevant := gtList.dedup.length
  let precision : ℚ := if k > 0 then (intersectLen : ℚ) / (k : ℚ) else 0
  let «recall» : ℚ := if total_relevant > 0 then (intersectLen : ℚ) / (total_relevant : ℚ) else 0
  match apLoop current_results gtList k with
  | none => none
  | some s =>
    let norm : Nat := if total_relevant > 0 then min k total_relevant else 1
    some (precision, «recall», s.1 / (norm : ℚ))

/-- The per-query record stored in `per_query_metrics[query_id]`. -/
structure QueryMetrics (α : Type) where
  candidates : List α
  ground_truth : List α
  precision : List ℚ
  «recall» : List ℚ
  ap : List ℚ
deriving DecidableEq

/-- One query's metrics for every cutoff `k = 1..max_k`. -/
def computeQuery (max_k : Nat) (results gtList : List α) : Option (QueryMetrics α) := do
  let triples ← (List.range max_k).mapM (fun j => queryStep results gtList (j + 1))
  pure { candidates := results
         ground_truth := gtList
         precision := triples.map (fun t => t.1)
         «recall» := triples.map (fun t => t.2.1)
         ap := triples.map (fun t => t.2.2) }

/-- The queries of `resultFile` that survive the
`if query_id not in groundtruth: continue` filter, in iteration order,
paired with their candidate list and ground-truth value. -/
def scoredEntries (resultFile groundtruth : List (Q × List α)) :
    List (Q × List α × List α) :=
  resultFile.filterMap (fun e => (lookupQ groundtruth e.1).map (fun g => (e.1, e.2, g)))

/-- Elementwise accumulation of per-query vectors into the
`np.zeros(max_k)` system-wide arrays (`system_precision[k-1] += ...`). -/
def addInto (max_k : Nat) (vs : List (List ℚ)) : List ℚ :=
  vs.foldl (fun acc v => List.zipWith (· + ·) acc v) (List.replicate max_k 0)

/-- `2 * (P * R) / (P + R)` followed by `np.nan_to_num`: with the
non-negative operands that reach this formula, the only non-finite result
is the NaN from `0/0`, and rational division by zero already returns 0. -/
def f1Formula (p r : ℚ) : ℚ := 2 * (p * r) / (p + r)

/-- The system-wide averaging block guarded by `if num_queries > 0`:
returns `(system_precision, system_recall, system_map, system_f1)`.
`np.mean([...], axis=0)` is the elementwise sum divided by the number of
rows, which equals `num_queries`. -/
def systemArrays (max_k : Nat) (perQuery : List (Q × QueryMetrics α)) :
    List ℚ × List ℚ × List ℚ × List ℚ :=
  let n := perQuery.length
  if n > 0 then
    let sysP := (addInto max_k (perQuery.map (fun e => e.2.precision))).map (· / (n : ℚ))
    let sysR := (addInto max_k (perQuery.map (fun e => e.2.«recall»))).map (· / (n : ℚ))
    let sysM := (addInto max_k (perQuery.map (fun e => e.2.ap))).map (· / (n : ℚ))
    let sysF := List.zipWith f1Formula sysP sysR
    (sysP, sysR, sysM, sysF)
  else
    (List.replicate max_k 0, List.replicate max_k 0,
     List.replicate max_k 0, List.replicate max_k 0)

/-- Python `range(start, stop, step)` for a positive step: the values
`start, start + step, …` strictly below `stop`. -/
def rangeStep (start stop step : Nat) : List Nat :=
  (List.range ((stop - start + step - 1) / step)).map (fun i => start + i * step)

/-- `used_k = [k_range]`, extended by
`for i in range(k_range*2, max_k+1, k_range): used_k.append(i)` when
`max_k > k_range`.  `none` models the `ValueError` Python's `range` raises
on a zero step. -/
def usedK (max_k k_range : Nat) : Option (List Nat) :=
  if max_k > k_range then
    if k_range = 0 then none
    else some (k_range :: rangeStep (k_range * 2) (max_k + 1) k_range)
  else some [k_range]

/-- The `metrics_at_k` snapshots: for each selected `k`, the four
system-wide arrays read at index `k-1`; `none` models the `IndexError`
from an out-of-range read.  (For `k = 0` — reachable only with
`k_range = 0` and `max_k = 0`, where every array is empty — Python's
negative index `-1` also raises `IndexError`, matching `none` here.) -/
def metricsAtK (used_k : List Nat) (sp sr sm sf : List ℚ) :
    Option (List (Nat × ℚ × ℚ × ℚ × ℚ)) :=
  used_k.mapM (fun k => do
    let p ← sp.get? (k - 1)
    let r ← sr.get? (k - 1)
    let m ← sm.get? (k - 1)
    let f ← sf.get? (k - 1)
    pure (k, p, r, m, f))

/-- The dictionary returned by `calcMetrics`. -/
structure Report (Q α : Type) where
  system_precision : List ℚ
  system_recall : List ℚ
  system_map : List ℚ
  system_f1 : List ℚ
  used_k : List Nat
  metrics_at_k : List (Nat × ℚ × ℚ × ℚ × ℚ)
  per_query_metrics : List (Q × QueryMetrics α)
deriving DecidableEq

/-- `calcMetrics(max_k, k_range, resultFile, …)` with the ground-truth
dict already loaded and the MLflow logging disabled (`record=False`);
neither affects the returned report. -/
def calcMetrics (max_k k_range : Nat) (resultFile groundtruth : List (Q × List α)) :
    Option (Report Q α) := do
  let perQuery ← (scoredEntries resultFile groundtruth).mapM
    (fun e => (computeQuery max_k e.2.1 e.2.2).map (fun m => (e.1, m)))
  let arrays := systemArrays max_k perQuery
  let uk ← usedK max_k k_range
  let mk ← metricsAtK uk arrays.1 arrays.2.1 arrays.2.2.1 arrays.2.2.2
  pure { system_precision := arrays.1
         system_recall := arrays.2.1
         system_map := arrays.2.2.1
         system_f1 := arrays.2.2.2
         used_k := uk
         metrics_at_k := mk
         per_query_metrics := perQuery }

/-- Modelled from the spec (§4.1 step 2, refinement reference only): the
AP walk in the spec's own words — "walk ranks 1..k in order; each time the
item at that rank is relevant, increment a relevant-count and add
relevant-count / rank to a running sum". -/
def specWalk (gtList : List α) : List α → Nat → Nat → ℚ
  | [], _, _ => 0
  | x :: rest, rank, cnt =>
    if x ∈ gtList then
      ((cnt + 1 : Nat) : ℚ) / (rank : ℚ) + specWalk gtList rest (rank + 1) (cnt + 1)
    else
      specWalk gtList rest (rank + 1) cnt

/-- Modelled from the spec (§4.1 step 2, refinement reference only):
AP@k as the spec words it — the walk's sum over the top-k items, divided
by `min(k, total_relevant)` if `total_relevant > 0`, else by 1. -/
def specAP (cands gtList : List α) (k : Nat) : ℚ :=
  let total_relevant := gtList.dedup.length
  let norm : Nat := if total_relevant > 0 then min k total_relevant else 1
  specWalk gtList (cands.take k) 1 0 / (norm : ℚ)

/-! ## Helper lemmas on the AP walk -/

lemma apLoopGo_range' (cur gtList : List α) :
    ∀ (m i : Nat) (s : ℚ) (num : Nat), i + m ≤ cur.length →
      apLoopGo cur gtList (List.range' i m) (s, num) =
        some (s + specWalk gtList ((cur.drop i).take m) (i + 1) num,
              num + ((cur.drop i).take m).countP (· ∈ gtList)) := by
  intro m
  induction m with
  | zero => intro i s num _; simp [apLoopGo, specWalk]
  | succ m ih =>
    intro i s num h
    have hi : i < cur.length := by omega
    have hget : cur.get? i = some cur[i] := by
      rw [List.get?_eq_getElem?]; exact List.getElem?_eq_getElem hi
    have hdrop : cur.drop i = cur[i] :: cur.drop (i + 1) := List.drop_eq_getElem_cons hi
    rw [List.range'_succ, hdrop, List.take_succ_cons]
    by_cases hmem : cur[i] ∈ gtList
    · simp only [apLoopGo, hget, hmem, if_pos]
      rw [ih (i + 1) (s + ((num + 1 : Nat) : ℚ) / ((i + 1 : Nat) : ℚ)) (num + 1) (by omega)]
      simp only [specWalk, hmem, if_pos, List.countP_cons, decide_eq_true_eq, hmem, if_true]
      congr 1
      refine Prod.ext ?_ ?_
      · show s + ((num + 1 : Nat) : ℚ) / ((i + 1 : Nat) : ℚ) +
            specWalk gtList ((cur.drop (i + 1)).take m) (i + 1 + 1) (num + 1) = _
        push_cast
        ring
      · show num + 1 + ((cur.drop (i + 1)).take m).countP (· ∈ gtList) = _
        omega
    · simp only [apLoopGo, hget, hmem, if_neg, if_false]
      rw [ih (i + 1) s num (by omega)]
      simp only [specWalk, hmem, if_neg, if_false, List.countP_cons, decide_eq_true_eq]
      congr 1

lemma apLoop_eq (cur gtList : List α) (k : Nat) (h : k ≤ cur.length) :
    apLoop cur gtList k =
      some (specWalk gtList (cur.take k) 1 0, (cur.take k).countP (· ∈ gtList)) := by
  have hh := apLoopGo_range' cur gtList k 0 0 0 (by omega)
  simpa [apLoop, List.range_eq_range'] using hh

lemma apLoopGo_none (cur gtList : List α) :
    ∀ (l : List Nat) (acc : ℚ × Nat), (∃ i ∈ l, cur.length ≤ i) →
      apLoopGo cur gtList l acc = none := by
  intro l
  induction l with
  | nil => intro acc h; simp at h
  | cons j rest ih =>
    intro acc h
    rcases h with ⟨i, hmem, hlen⟩
    rcases List.mem_cons.mp hmem with rfl | hrest
    · have hg : cur.get? i = none := List.get?_eq_none.mpr hlen
      rw [List.get?_eq_getElem?] at hg
      simp [apLoopGo, hg]
    · cases hget : cur[j]? with
      | none => simp [apLoopGo, hget]
      | some x =>
        simp only [apLoopGo, List.get?_eq_getElem?, hget]
        split <;> exact ih _ ⟨i, hrest, hlen⟩

lemma apLoop_none (cur gtList : List α) (k : Nat) (h : cur.length < k) :
    apLoop cur gtList k = none :=
  apLoopGo_none cur gtList _ _ ⟨cur.length, List.mem_range.mpr h, le_refl _⟩

/-! ## Characterization of `queryStep` -/

lemma queryStep_eq (results gtList : List α) (k : Nat) (h : k ≤ results.length) :
    queryStep results gtList k =
      some ((if k > 0 then ((interCount (results.take k) gtList : ℚ) / (k : ℚ)) else 0),
            (if gtList.dedup.length > 0 then
              ((interCount (results.take k) gtList : ℚ) / (gtList.dedup.length : ℚ)) else 0),
            specAP results gtList k) := by
  have hlen : k ≤ (results.take k).length := by
    simp only [List.length_take]; omega
  have hap := apLoop_eq (results.take k) gtList k hlen
  have htt : (results.take k).take k = results.take k := by
    rw [List.take_take]; simp
  rw [htt] at hap
  simp only [queryStep, hap, specAP]

lemma queryStep_none (results gtList : List α) (k : Nat) (h : results.length < k) :
    queryStep results gtList k = none := by
  have hl : (results.take k).length < k := by
    simp only [List.length_take]; omega
  simp [queryStep, apLoop_none _ _ _ hl]

lemma queryStep_some_inv (results gtList : List α) (k : Nat) (p r a : ℚ)
    (h : queryStep results gtList k = some (p, r, a)) :
    k ≤ results.length ∧
    p = (if k > 0 then ((interCount (results.take k) gtList : ℚ) / (k : ℚ)) else 0) ∧
    r = (if gtList.dedup.length > 0 then
          ((interCount (results.take k) gtList : ℚ) / (gtList.dedup.length : ℚ)) else 0) ∧
    a = specAP results gtList k := by
  rcases le_or_lt k results.length with hk | hk
  · rw [queryStep_eq _ _ _ hk] at h
    have := Option.some.inj h
    rw [Prod.mk.injEq, Prod.mk.injEq] at this
    exact ⟨hk, this.1.symm, this.2.1.symm, this.2.2.symm⟩
  · rw [queryStep_none _ _ _ hk] at h
    cases h

/-! ## Bounds on the intersection count and the spec walk -/

lemma interCount_le_length (cur gtList : List α) : interCount cur gtList ≤ cur.length :=
  le_trans (List.length_filter_le _ _) (List.Sublist.length_le (List.dedup_sublist cur))

lemma interCount_le_dedup (cur gtList : List α) :
    interCount cur gtList ≤ gtList.dedup.length := by
  apply List.Subperm.length_le
  apply List.Nodup.subperm ((List.nodup_dedup cur).filter _)
  intro x hx
  have hx2 := List.mem_filter.mp hx
  exact List.mem_dedup.mpr (by simpa using hx2.2)

lemma take_subset_take_succ (results : List α) (k : Nat) :
    results.take k ⊆ results.take (k + 1) := by
  have h : results.take k = (results.take (k + 1)).take k := by
    rw [List.take_take]
    congr 1
    omega
  rw [h]
  exact List.take_subset _ _

lemma interCount_take_mono (results gtList : List α) (k : Nat) :
    interCount (results.take k) gtList ≤ interCount (results.take (k + 1)) gtList := by
  apply List.Subperm.length_le
  apply List.Nodup.subperm ((List.nodup_dedup _).filter _)
  intro x hx
  have hx2 := List.mem_filter.mp hx
  refine List.mem_filter.mpr ⟨?_, hx2.2⟩
  exact List.mem_dedup.mpr (take_subset_take_succ results k (List.mem_dedup.mp hx2.1))

lemma specWalk_nonneg (gtList : List α) (l : List α) :
    ∀ (rank cnt : Nat), 0 ≤ specWalk gtList l rank cnt := by
  induction l with
  | nil => intro rank cnt; simp [specWalk]
  | cons x rest ih =>
    intro rank cnt
    simp only [specWalk]
    split
    · have h1 : (0 : ℚ) ≤ ((cnt + 1 : Nat) : ℚ) / ((rank : Nat) : ℚ) := by positivity
      have h2 := ih (rank + 1) (cnt + 1)
      linarith
    · exact ih (rank + 1) cnt

lemma specWalk_le_countP (gtList : List α) (l : List α) :
    ∀ (rank cnt : Nat), cnt < rank →
      specWalk gtList l rank cnt ≤ (l.countP (· ∈ gtList) : ℚ) := by
  induction l with
  | nil => intro rank cnt _; simp [specWalk]
  | cons x rest ih =>
    intro rank cnt hcr
    simp only [specWalk, List.countP_cons]
    by_cases hmem : x ∈ gtList
    · simp only [hmem, if_pos, decide_eq_true_eq, if_true]
      have h1 : ((cnt + 1 : Nat) : ℚ) / ((rank : Nat) : ℚ) ≤ 1 := by
        rw [div_le_one (by exact_mod_cast (show 0 < rank by omega))]
        exact_mod_cast hcr
      have h2 := ih (rank + 1) (cnt + 1) (by omega)
      push_cast
      push_cast at h2 h1
      linarith
    · simp only [hmem, if_neg, decide_eq_true_eq, if_false]
      have h2 := ih (rank + 1) cnt (by omega)
      simpa using h2

lemma countP_le_dedup_of_nodup (l gtList : List α) (hl : l.Nodup) :
    l.countP (· ∈ gtList) ≤ gtList.dedup.length := by
  rw [List.countP_eq_length_filter]
  apply List.Subperm.length_le
  apply List.Nodup.subperm (hl.filter _)
  intro x hx
  have hx2 := List.mem_filter.mp hx
  exact List.mem_dedup.mpr (by simpa using hx2.2)

lemma specAP_nonneg (cands gtList : List α) (k : Nat) : 0 ≤ specAP cands gtList k := by
  unfold specAP
  exact div_nonneg (specWalk_nonneg _ _ _ _) (Nat.cast_nonneg _)

lemma specAP_le_one (cands gtList : List α) (k : Nat) (hnd : cands.Nodup) :
    specAP cands gtList k ≤ 1 := by
  unfold specAP
  by_cases hT : gtList.dedup.length > 0
  · rcases Nat.eq_zero_or_pos k with rfl | hk
    · simp [specWalk]
    · simp only [hT, if_pos]
      rw [div_le_one (by exact_mod_cast lt_min hk hT)]
      have h1 : specWalk gtList (cands.take k) 1 0 ≤ ((cands.take k).countP (· ∈ gtList) : ℚ) :=
        specWalk_le_countP _ _ _ _ (by omega)
      have h2 : (cands.take k).countP (· ∈ gtList) ≤ k :=
        le_trans (List.countP_le_length _) (by simp [List.length_take])
      have h3 : (cands.take k).countP (· ∈ gtList) ≤ gtList.dedup.length :=
        countP_le_dedup_of_nodup _ _ (List.Nodup.sublist (List.take_sublist _ _) hnd)
      calc specWalk gtList (cands.take k) 1 0
          ≤ ((cands.take k).countP (· ∈ gtList) : ℚ) := h1
        _ ≤ ((min k gtList.dedup.length : Nat) : ℚ) := by
            exact_mod_cast le_min h2 h3
  · have hnil : gtList = [] := by
      rw [← List.dedup_eq_nil]
      exact List.length_eq_zero.mp (by omega)
    subst hnil
    have h1 : specWalk ([] : List α) (cands.take k) 1 0 ≤ (((cands.take k).countP (· ∈ ([] : List α))) : ℚ) :=
      specWalk_le_countP _ _ _ _ (by omega)
    have h2 : (cands.take k).countP (· ∈ ([] : List α)) = 0 := by
      simp
    rw [h2] at h1
    show specWalk ([] : List α) (cands.take k) 1 0 / ((1 : Nat) : ℚ) ≤ 1
    rw [Nat.cast_one, div_one]
    exact le_trans h1 (by norm_num)

lemma specAP_gt_nil (cands : List α) (k : Nat) : specAP cands ([] : List α) k = 0 := by
  unfold specAP
  have h1 := specWalk_le_countP ([] : List α) (cands.take k) 1 0 (by omega)
  have h2 : (cands.take k).countP (· ∈ ([] : List α)) = 0 := by simp
  rw [h2] at h1
  have h3 := specWalk_nonneg ([] : List α) (cands.take k) 1 0
  have h4 : specWalk ([] : List α) (cands.take k) 1 0 = 0 :=
    le_antisymm (by exact_mod_cast h1) h3
  simp [h4]

/-! ## The claims -/

/-- Claim C1: for a query in both mappings and any cutoff `k` within the
candidate list, AP@k computed by the code equals the spec's walk —
increment a relevant-count at each relevant rank, add `count/rank`, and
divide the sum by `min(k, total_relevant)` (by 1 when `total_relevant = 0`);
in particular for candidates `[a, x, b]` and ground truth `{a, b, c}`,
AP@1 = 1 and AP@3 = 5/9. -/
theorem claim_C1 :
    (∀ (results gtList : List α) (k : Nat), k ≤ results.length →
      (queryStep results gtList k).map (fun t => t.2.2) = some (specAP results gtList k)) ∧
    (queryStep ([0, 5, 1] : List ℕ) [0, 1, 2] 1).map (fun t => t.2.2) = some 1 ∧
    (queryStep ([0, 5, 1] : List ℕ) [0, 1, 2] 3).map (fun t => t.2.2) = some (5 / 9) := by
  refine ⟨?_, ?_, ?_⟩
  · intro results gtList k h
    rw [queryStep_eq _ _ _ h]
    rfl
  · simp [queryStep, apLoop, apLoopGo, interCount, List.range_succ, List.dedup]
    exact fun h => h
  · simp [queryStep, apLoop, apLoopGo, interCount, List.range_succ, List.dedup]
    norm_num

/-- Witness for C1 at a concrete input. -/
theorem claim_C1_witness :
    (2 ≤ ([3, 4, 5] : List ℕ).length) ∧
    (queryStep ([3, 4, 5] : List ℕ) [4] 2).map (fun t => t.2.2) =
      some (specAP ([3, 4, 5] : List ℕ) [4] 2) :=
  ⟨by decide, claim_C1.1 [3, 4, 5] [4] 2 (by decide)⟩

/-- Claim C2 (refuted — code bug): the claim says a candidate list shorter
than `max_k` is processed without error, the positions past the list end
contributing an empty intersection.  In the code, `precision`/`recall`
indeed use the clamped slice `results[:k]`, but the AP loop then reads
`current_results[i-1]` for every `i ≤ k` and raises `IndexError` once `i`
passes the end of the list: with one query whose candidate list is `[7]`
and `max_k = 2`, the whole call fails (modelled by `none`), already at the
inner walk. -/
theorem claim_C2_failing :
    calcMetrics 2 1 [((0 : ℕ), [(7 : ℕ)])] [(0, [7])] = none ∧
    apLoop ([7] : List ℕ) [7] 2 = none := by
  constructor
  · decide
  · decide

/-- Counterexample to C3 as stated: with the duplicated candidate list
`[7, 7]` and ground truth `{7}`, the walk counts the repeated position
twice while the normaliser is capped at `total_relevant = 1`, so
AP@2 = (1/1 + 2/2) / 1 = 2 > 1. -/
theorem claim_C3_counterexample :
    (queryStep ([7, 7] : List ℕ) [7] 2).map (fun t => t.2.2) = some 2 ∧
    ¬ ((2 : ℚ) ≤ 1) := by
  constructor
  · simp [queryStep, apLoop, apLoopGo, interCount, List.range_succ, List.dedup]
    norm_num
  · norm_num

/-- Claim C3 (amended): whenever a per-query step completes,
`0 ≤ precision@k ≤ 1`, `0 ≤ recall@k ≤ 1` and `0 ≤ AP@k`; the upper bound
`AP@k ≤ 1` additionally requires the candidate list to contain no
duplicate identifiers (the original claim asserted it for duplicated lists
too, which the counterexample refutes). -/
theorem claim_C3_amended :
    ∀ (results gtList : List α) (k : Nat) (p r a : ℚ),
      queryStep results gtList k = some (p, r, a) →
      0 ≤ p ∧ p ≤ 1 ∧ 0 ≤ r ∧ r ≤ 1 ∧ 0 ≤ a ∧ (results.Nodup → a ≤ 1) := by
  intro results gtList k p r a h
  obtain ⟨hk, hp, hr, ha⟩ := queryStep_some_inv _ _ _ _ _ _ h
  subst hp
  subst hr
  subst ha
  refine ⟨?_, ?_, ?_, ?_, specAP_nonneg _ _ _, fun hnd => specAP_le_one _ _ _ hnd⟩
  · split
    · positivity
    · exact le_refl 0
  · split
    · rename_i h0
      rw [div_le_one (by exact_mod_cast h0)]
      have := le_trans (interCount_le_length (results.take k) gtList)
        (le_of_eq (List.length_take k results) |>.trans (min_le_left _ _))
      exact_mod_cast this
    · norm_num
  · split
    · positivity
    · exact le_refl 0
  · split
    · rename_i h0
      rw [div_le_one (by exact_mod_cast h0)]
      exact_mod_cast interCount_le_dedup (results.take k) gtList
    · norm_num

/-- Witness for C3 (amended) at a concrete input. -/
theorem claim_C3_witness :
    (queryStep ([3, 4] : List ℕ) [4, 9] 2 = some (1 / 2, 1 / 2, 1 / 4)) ∧
    (0 ≤ (1 / 2 : ℚ) ∧ (1 / 2 : ℚ) ≤ 1 ∧ 0 ≤ (1 / 2 : ℚ) ∧ (1 / 2 : ℚ) ≤ 1 ∧
      0 ≤ (1 / 4 : ℚ) ∧ (([3, 4] : List ℕ).Nodup → (1 / 4 : ℚ) ≤ 1)) := by
  have h : queryStep ([3, 4] : List ℕ) [4, 9] 2 = some (1 / 2, 1 / 2, 1 / 4) := by
    simp [queryStep, apLoop, apLoopGo, interCount, List.range_succ, List.dedup]
    norm_num
  exact ⟨h, claim_C3_amended [3, 4] [4, 9] 2 (1 / 2) (1 / 2) (1 / 4) h⟩

/-- Claim C4: every division-by-zero condition resolves locally to 0 —
a query with an empty ground-truth set gets `recall@k = 0` and (through
the normaliser 1) `AP@k = 0`; with zero scored queries the four
system-wide arrays stay all-zero; and the F1 formula returns 0 whenever
`P + R = 0`. -/
theorem claim_C4 :
    (∀ (results gtList : List α) (k : Nat) (p r a : ℚ),
        gtList.dedup.length = 0 →
        queryStep results gtList k = some (p, r, a) → r = 0 ∧ a = 0) ∧
    (∀ max_k : Nat, systemArrays max_k ([] : List (Q × QueryMetrics α)) =
        (List.replicate max_k 0, List.replicate max_k 0,
         List.replicate max_k 0, List.replicate max_k 0)) ∧
    (∀ p r : ℚ, p + r = 0 → f1Formula p r = 0) := by
  refine ⟨?_, ?_, ?_⟩
  · intro results gtList k p r a hT h
    obtain ⟨hk, hp, hr, ha⟩ := queryStep_some_inv _ _ _ _ _ _ h
    have hnil : gtList = [] := by
      rw [← List.dedup_eq_nil]
      exact List.length_eq_zero.mp hT
    subst hnil
    constructor
    · rw [hr]; simp
    · rw [ha, specAP_gt_nil]
  · intro max_k
    simp [systemArrays]
  · intro p r h
    unfold f1Formula
    rw [h, div_zero]

/-- Witness for C4 at concrete inputs. -/
theorem claim_C4_witness :
    (([] : List ℕ).dedup.length = 0 ∧
      queryStep ([5] : List ℕ) [] 1 = some (0, 0, 0) ∧ ((0 : ℚ) = 0 ∧ (0 : ℚ) = 0)) ∧
    systemArrays 2 ([] : List (ℕ × QueryMetrics ℕ)) =
      (List.replicate 2 0, List.replicate 2 0, List.replicate 2 0, List.replicate 2 0) ∧
    ((2 : ℚ) + (-2) = 0 ∧ f1Formula 2 (-2) = 0) := by
  have hC := @claim_C4 ℕ ℕ _ _
  have h : queryStep ([5] : List ℕ) [] 1 = some (0, 0, 0) := by
    simp [queryStep, apLoop, apLoopGo, interCount, List.range_succ, List.dedup]
  exact ⟨⟨by decide, h, hC.1 [5] [] 1 0 0 0 (by decide) h⟩,
    hC.2.1 2, by norm_num, hC.2.2 2 (-2) (by norm_num)⟩

/-- Claim C5: for a fixed query, recall is non-decreasing in the cutoff —
whenever the per-query step completes at `k` and `k+1`, recall@k ≤
recall@(k+1), because the larger prefix cannot lose intersected
elements. -/
theorem claim_C5 :
    ∀ (results gtList : List α) (k : Nat) (p r a p2 r2 a2 : ℚ),
      queryStep results gtList k = some (p, r, a) →
      queryStep results gtList (k + 1) = some (p2, r2, a2) →
      r ≤ r2 := by
  intro results gtList k p r a p2 r2 a2 h1 h2
  obtain ⟨_, _, hr, _⟩ := queryStep_some_inv _ _ _ _ _ _ h1
  obtain ⟨_, _, hr2, _⟩ := queryStep_some_inv _ _ _ _ _ _ h2
  subst hr
  subst hr2
  by_cases hT : gtList.dedup.length > 0
  · simp only [hT, if_pos]
    exact div_le_div_of_nonneg_right
      (by exact_mod_cast interCount_take_mono results gtList k) (Nat.cast_nonneg _)
  · simp [hT]

/-- Witness for C5 at a concrete input. -/
theorem claim_C5_witness :
    (queryStep ([3, 4] : List ℕ) [4, 9] 1 = some (0, 0, 0) ∧
      queryStep ([3, 4] : List ℕ) [4, 9] 2 = some (1 / 2, 1 / 2, 1 / 4)) ∧
    (0 : ℚ) ≤ 1 / 2 := by
  have h1 : queryStep ([3, 4] : List ℕ) [4, 9] 1 = some (0, 0, 0) := by
    simp [queryStep, apLoop, apLoopGo, interCount, List.range_succ, List.dedup]
  have h2 : queryStep ([3, 4] : List ℕ) [4, 9] 2 = some (1 / 2, 1 / 2, 1 / 4) := by
    simp [queryStep, apLoop, apLoopGo, interCount, List.range_succ, List.dedup]
    norm_num
  exact ⟨⟨h1, h2⟩, claim_C5 [3, 4] [4, 9] 1 0 0 0 (1 / 2) (1 / 2) (1 / 4) h1 h2⟩

/-! ## Option-valued `mapM` helpers and inversion lemmas -/

lemma mapM_option_length {β γ : Type} (f : β → Option γ) :
    ∀ (l : List β) (out : List γ), l.mapM f = some out → out.length = l.length := by
  intro l
  induction l with
  | nil =>
    intro out h
    rw [List.mapM_nil] at h
    cases h
    rfl
  | cons x xs ih =>
    intro out h
    rw [List.mapM_cons] at h
    cases hfx : f x with
    | none => rw [hfx] at h; simp at h
    | some y =>
      rw [hfx] at h
      cases hm : xs.mapM f with
      | none => rw [hm] at h; simp at h
      | some ys =>
        rw [hm] at h
        simp only [Option.bind_eq_bind, Option.some_bind, pure, Option.some.injEq] at h
        rw [← h]
        simp [ih ys hm]

lemma mapM_option_mem {β γ : Type} (f : β → Option γ) :
    ∀ (l : List β) (out : List γ), l.mapM f = some out →
      ∀ y ∈ out, ∃ x ∈ l, f x = some y := by
  intro l
  induction l with
  | nil =>
    intro out h y hy
    rw [List.mapM_nil] at h
    cases h
    simp at hy
  | cons x xs ih =>
    intro out h y hy
    rw [List.mapM_cons] at h
    cases hfx : f x with
    | none => rw [hfx] at h; simp at h
    | some z =>
      rw [hfx] at h
      cases hm : xs.mapM f with
      | none => rw [hm] at h; simp at h
      | some ys =>
        rw [hm] at h
        simp only [Option.bind_eq_bind, Option.some_bind, pure, Option.some.injEq] at h
        rw [← h] at hy
        rcases List.mem_cons.mp hy with rfl | hys
        · exact ⟨x, List.mem_cons_self _ _, hfx⟩
        · obtain ⟨w, hw, hfw⟩ := ih ys hm y hys
          exact ⟨w, List.mem_cons_of_mem _ hw, hfw⟩

lemma mapM_option_eq_map {β γ : Type} (f : β → Option γ) (g : β → γ) :
    ∀ l : List β, (∀ x ∈ l, f x = some (g x)) → l.mapM f = some (l.map g) := by
  intro l
  induction l with
  | nil => intro _; rw [List.mapM_nil]; rfl
  | cons x xs ih =>
    intro h
    rw [List.mapM_cons, h x (List.mem_cons_self _ _), ih (fun w hw => h w (List.mem_cons_of_mem _ hw))]
    rfl

lemma get?_eq_some_getD {γ : Type} (l : List γ) (d : γ) (i : Nat) (h : i < l.length) :
    l.get? i = some (l.getD i d) := by
  rw [List.get?_eq_getElem?, List.getElem?_eq_getElem h, List.getD_eq_getElem?_getD,
    List.getElem?_eq_getElem h]
  rfl

lemma scoredEntries_mem_inv (resultFile groundtruth : List (Q × List α))
    (x : Q × List α × List α) (hx : x ∈ scoredEntries resultFile groundtruth) :
    (x.1, x.2.1) ∈ resultFile ∧ lookupQ groundtruth x.1 = some x.2.2 := by
  unfold scoredEntries at hx
  obtain ⟨a, ha, hfa⟩ := List.mem_filterMap.mp hx
  cases hlk : lookupQ groundtruth a.1 with
  | none => rw [hlk] at hfa; simp at hfa
  | some g =>
    rw [hlk] at hfa
    simp only [Option.map_some', Option.some.injEq] at hfa
    rw [← hfa]
    exact ⟨by simpa using ha, by simpa using hlk⟩

lemma computeQuery_some_inv (max_k : Nat) (results gtList : List α) (m : QueryMetrics α)
    (h : computeQuery max_k results gtList = some m) :
    m.candidates = results ∧ m.ground_truth = gtList ∧
    m.precision.length = max_k ∧ m.«recall».length = max_k ∧ m.ap.length = max_k := by
  unfold computeQuery at h
  cases ht : (List.range max_k).mapM (fun j => queryStep results gtList (j + 1)) with
  | none => rw [ht] at h; simp at h
  | some triples =>
    rw [ht] at h
    simp only [Option.bind_eq_bind, Option.some_bind, pure, Option.some.injEq] at h
    have hlen : triples.length = max_k := by
      rw [mapM_option_length _ _ _ ht, List.length_range]
    rw [← h]
    simp [hlen]

lemma perQuery_mem_inv (max_k : Nat) (resultFile groundtruth : List (Q × List α))
    (perQuery : List (Q × QueryMetrics α))
    (hpq : (scoredEntries resultFile groundtruth).mapM
      (fun e => (computeQuery max_k e.2.1 e.2.2).map (fun m => (e.1, m))) = some perQuery) :
    ∀ y ∈ perQuery, ∃ x ∈ scoredEntries resultFile groundtruth,
      y.1 = x.1 ∧ computeQuery max_k x.2.1 x.2.2 = some y.2 := by
  intro y hy
  obtain ⟨x, hx, hfx⟩ := mapM_option_mem _ _ _ hpq y hy
  cases hc : computeQuery max_k x.2.1 x.2.2 with
  | none => rw [hc] at hfx; simp at hfx
  | some m =>
    rw [hc] at hfx
    simp only [Option.map_some', Option.some.injEq] at hfx
    exact ⟨x, hx, by rw [← hfx], by rw [← hfx, hc]⟩

lemma calcMetrics_some_inv (max_k k_range : Nat) (resultFile groundtruth : List (Q × List α))
    (rep : Report Q α) (h : calcMetrics max_k k_range resultFile groundtruth = some rep) :
    ∃ perQuery uk mk,
      (scoredEntries resultFile groundtruth).mapM
        (fun e => (computeQuery max_k e.2.1 e.2.2).map (fun m => (e.1, m))) = some perQuery ∧
      usedK max_k k_range = some uk ∧
      metricsAtK uk (systemArrays max_k perQuery).1 (systemArrays max_k perQuery).2.1
        (systemArrays max_k perQuery).2.2.1 (systemArrays max_k perQuery).2.2.2 = some mk ∧
      rep.per_query_metrics = perQuery ∧
      rep.system_precision = (systemArrays max_k perQuery).1 ∧
      rep.system_recall = (systemArrays max_k perQuery).2.1 ∧
      rep.system_map = (systemArrays max_k perQuery).2.2.1 ∧
      rep.system_f1 = (systemArrays max_k perQuery).2.2.2 ∧
      rep.used_k = uk ∧
      rep.metrics_at_k = mk := by
  unfold calcMetrics at h
  cases hpq : (scoredEntries resultFile groundtruth).mapM
      (fun e => (computeQuery max_k e.2.1 e.2.2).map (fun m => (e.1, m))) with
  | none => rw [hpq] at h; simp at h
  | some perQuery =>
    rw [hpq] at h
    simp only [Option.bind_eq_bind, Option.some_bind] at h
    cases huk : usedK max_k k_range with
    | none => rw [huk] at h; simp at h
    | some uk =>
      rw [huk] at h
      simp only [Option.bind_eq_bind, Option.some_bind] at h
      cases hmk : metricsAtK uk (systemArrays max_k perQuery).1 (systemArrays max_k perQuery).2.1
          (systemArrays max_k perQuery).2.2.1 (systemArrays max_k perQuery).2.2.2 with
      | none => rw [hmk] at h; simp at h
      | some mk =>
        rw [hmk] at h
        simp only [Option.bind_eq_bind, Option.some_bind, pure, Option.some.injEq] at h
        exact ⟨perQuery, uk, mk, rfl, rfl, hmk, by rw [← h], by rw [← h], by rw [← h],
          by rw [← h], by rw [← h], by rw [← h], by rw [← h]⟩

lemma scoredEntries_skip (resultFile groundtruth : List (Q × List α)) (q : Q) (cand : List α)
    (h : lookupQ groundtruth q = none) :
    scoredEntries ((q, cand) :: resultFile) groundtruth =
      scoredEntries resultFile groundtruth := by
  simp [scoredEntries, List.filterMap_cons, h]

/-- Claim C6: a query present in the results mapping but missing from the
ground truth is skipped entirely — prepending it leaves the scored-entry
list (and hence the whole report, sums and divisor included) unchanged,
and no per-query record is emitted under its ID. -/
theorem claim_C6 :
    (∀ (resultFile groundtruth : List (Q × List α)) (q : Q) (cand : List α),
      lookupQ groundtruth q = none →
      scoredEntries ((q, cand) :: resultFile) groundtruth =
        scoredEntries resultFile groundtruth) ∧
    (∀ (max_k k_range : Nat) (resultFile groundtruth : List (Q × List α)) (q : Q)
        (cand : List α), lookupQ groundtruth q = none →
      calcMetrics max_k k_range ((q, cand) :: resultFile) groundtruth =
        calcMetrics max_k k_range resultFile groundtruth) ∧
    (∀ (max_k k_range : Nat) (resultFile groundtruth : List (Q × List α)) (q : Q)
        (rep : Report Q α), lookupQ groundtruth q = none →
      calcMetrics max_k k_range resultFile groundtruth = some rep →
      ∀ e ∈ rep.per_query_metrics, e.1 ≠ q) := by
  refine ⟨scoredEntries_skip, ?_, ?_⟩
  · intro max_k k_range resultFile groundtruth q cand h
    unfold calcMetrics
    rw [scoredEntries_skip resultFile groundtruth q cand h]
  · intro max_k k_range resultFile groundtruth q rep h hcalc e he
    obtain ⟨perQuery, uk, mk, hpq, _, _, hper, _⟩ :=
      calcMetrics_some_inv max_k k_range resultFile groundtruth rep hcalc
    rw [hper] at he
    obtain ⟨x, hx, he1, _⟩ := perQuery_mem_inv max_k resultFile groundtruth perQuery hpq e he
    obtain ⟨_, hlk⟩ := scoredEntries_mem_inv resultFile groundtruth x hx
    intro hcontra
    rw [he1] at hcontra
    rw [hcontra] at hlk
    rw [h] at hlk
    cases hlk

/-- Witness for C6 at concrete inputs. -/
theorem claim_C6_witness :
    (lookupQ [((1 : ℕ), [(5 : ℕ)])] 0 = none ∧
      scoredEntries ((0, [3]) :: [(1, [5])]) [((1 : ℕ), [(5 : ℕ)])] =
        scoredEntries [(1, [5])] [((1 : ℕ), [(5 : ℕ)])]) ∧
    calcMetrics 1 1 ((0, [3]) :: [(1, [5])]) [((1 : ℕ), [(5 : ℕ)])] =
      calcMetrics 1 1 [(1, [5])] [((1 : ℕ), [(5 : ℕ)])] ∧
    (calcMetrics 1 1 [((0 : ℕ), [(3 : ℕ)])] [(1, [5])] =
        some { system_precision := [0], system_recall := [0], system_map := [0],
               system_f1 := [0], used_k := [1], metrics_at_k := [(1, 0, 0, 0, 0)],
               per_query_metrics := [] } ∧
      ∀ e ∈ ({ system_precision := [0], system_recall := [0], system_map := [0],
               system_f1 := [0], used_k := [1], metrics_at_k := [(1, 0, 0, 0, 0)],
               per_query_metrics := [] } : Report ℕ ℕ).per_query_metrics, e.1 ≠ 0) := by
  have hC := @claim_C6 ℕ ℕ _ _
  refine ⟨⟨by decide, hC.1 [(1, [5])] [(1, [5])] 0 [3] (by decide)⟩,
    hC.2.1 1 1 [(1, [5])] [(1, [5])] 0 [3] (by decide), by decide, ?_⟩
  exact hC.2.2 1 1 [(0, [3])] [(1, [5])] 0 _ (by decide) (by decide)

/-- Claim C9: the metric computation is deterministic — two runs of the
engine on identical inputs produce identical reports (the embedding is a
pure function of its arguments). -/
theorem claim_C9 :
    ∀ (max_k k_range : Nat) (resultFile groundtruth : List (Q × List α)),
      calcMetrics max_k k_range resultFile groundtruth =
        calcMetrics max_k k_range resultFile groundtruth :=
  fun _ _ _ _ => rfl

/-- Claim C10: the inputs are never mutated — each returned per-query
record carries exactly the input candidate list under `candidates` and
exactly the ground-truth value looked up for that query under
`ground_truth` (the Lean embedding is pure, so the mappings themselves
cannot change; this captures the record-content half of the claim). -/
theorem claim_C10 :
    ∀ (max_k k_range : Nat) (resultFile groundtruth : List (Q × List α)) (rep : Report Q α),
      calcMetrics max_k k_range resultFile groundtruth = some rep →
      ∀ e ∈ rep.per_query_metrics,
        (e.1, e.2.candidates) ∈ resultFile ∧
        lookupQ groundtruth e.1 = some e.2.ground_truth := by
  intro max_k k_range resultFile groundtruth rep hcalc e he
  obtain ⟨perQuery, uk, mk, hpq, _, _, hper, _⟩ :=
    calcMetrics_some_inv max_k k_range resultFile groundtruth rep hcalc
  rw [hper] at he
  obtain ⟨x, hx, he1, hcq⟩ := perQuery_mem_inv max_k resultFile groundtruth perQuery hpq e he
  obtain ⟨hcand, hgt, _, _, _⟩ := computeQuery_some_inv max_k x.2.1 x.2.2 e.2 hcq
  obtain ⟨hin, hlk⟩ := scoredEntries_mem_inv resultFile groundtruth x hx
  constructor
  · rw [he1, hcand]
    exact hin
  · rw [he1, hgt]
    exact hlk

/-- Witness for C10 at a concrete input. -/
theorem claim_C10_witness :
    (calcMetrics 1 1 [((0 : ℕ), [(3 : ℕ)])] [(0, [5])] =
      some { system_precision := [0], system_recall := [0], system_map := [0],
             system_f1 := [0], used_k := [1], metrics_at_k := [(1, 0, 0, 0, 0)],
             per_query_metrics := [(0, ⟨[3], [5], [0], [0], [0]⟩)] }) ∧
    ∀ e ∈ ({ system_precision := [0], system_recall := [0], system_map := [0],
             system_f1 := [0], used_k := [1], metrics_at_k := [(1, 0, 0, 0, 0)],
             per_query_metrics := [(0, ⟨[3], [5], [0], [0], [0]⟩)] } :
        Report ℕ ℕ).per_query_metrics,
      (e.1, e.2.candidates) ∈ [((0 : ℕ), [(3 : ℕ)])] ∧
      lookupQ [((0 : ℕ), [(5 : ℕ)])] e.1 = some e.2.ground_truth := by
  have hcalc : calcMetrics 1 1 [((0 : ℕ), [(3 : ℕ)])] [(0, [5])] =
      some { system_precision := [0], system_recall := [0], system_map := [0],
             system_f1 := [0], used_k := [1], metrics_at_k := [(1, 0, 0, 0, 0)],
             per_query_metrics := [(0, ⟨[3], [5], [0], [0], [0]⟩)] } := by
    simp [calcMetrics, scoredEntries, lookupQ, computeQuery, queryStep, apLoop, apLoopGo,
      interCount, systemArrays, addInto, f1Formula, usedK, rangeStep, metricsAtK,
      List.range_succ, List.dedup, List.mapM.loop]
  exact ⟨hcalc, claim_C10 1 1 [(0, [3])] [(0, [5])] _ hcalc⟩

/-! ## Pointwise reading of the accumulated system-wide arrays -/

lemma foldl_zipWith_get? (j : Nat) :
    ∀ (vs : List (List ℚ)) (init : List ℚ), (∀ v ∈ vs, v.length = init.length) →
      (vs.foldl (fun acc v => List.zipWith (· + ·) acc v) init).get? j =
        (init.get? j).map (fun x => x + (vs.map (fun v => v.getD j 0)).sum) := by
  intro vs
  induction vs with
  | nil =>
    intro init _
    simp only [List.foldl_nil, List.map_nil, List.sum_nil]
    cases init.get? j <;> simp
  | cons v vs ih =>
    intro init h
    have hv : v.length = init.length := h v (List.mem_cons_self _ _)
    have hlen : (List.zipWith (· + ·) init v).length = init.length := by
      rw [List.length_zipWith, hv, min_self]
    simp only [List.foldl_cons]
    rw [ih (List.zipWith (· + ·) init v)
      (fun w hw => by rw [hlen]; exact h w (List.mem_cons_of_mem _ hw))]
    rw [List.get?_zipWith']
    cases hi : init.get? j with
    | none => simp
    | some x =>
      have hj : j < init.length := by
        by_contra hc
        rw [List.get?_eq_none.mpr (by omega)] at hi
        cases hi
      have hvj : v.get? j = some (v.getD j 0) := get?_eq_some_getD v 0 j (by omega)
      rw [hvj]
      simp only [Option.map_some', Option.some_bind, List.map_cons, List.sum_cons,
        Option.some.injEq]
      ring

lemma addInto_get? (max_k : Nat) (vs : List (List ℚ)) (j : Nat) (hj : j < max_k)
    (hlen : ∀ v ∈ vs, v.length = max_k) :
    (addInto max_k vs).get? j = some ((vs.map (fun v => v.getD j 0)).sum) := by
  unfold addInto
  rw [foldl_zipWith_get? j vs _ (by simpa using hlen)]
  have hr : (List.replicate max_k (0 : ℚ)).get? j = some 0 := by
    rw [List.get?_eq_getElem?, List.getElem?_eq_getElem (by simpa using hj)]
    simp
  rw [hr]
  simp

/-- Claim C8: with at least one scored query, for every `k` in `1..max_k`
the system-wide mean precision and mean recall at `k` are the per-query
sums divided by the number of scored queries, and MAP@k is the arithmetic
mean of the scored queries' AP@k, each `k` independently. -/
theorem claim_C8 :
    ∀ (max_k k_range : Nat) (resultFile groundtruth : List (Q × List α)) (rep : Report Q α),
      calcMetrics max_k k_range resultFile groundtruth = some rep →
      0 < rep.per_query_metrics.length →
      ∀ j : Nat, j < max_k →
        rep.system_precision.get? j =
          some ((rep.per_query_metrics.map (fun e => e.2.precision.getD j 0)).sum /
            (rep.per_query_metrics.length : ℚ)) ∧
        rep.system_recall.get? j =
          some ((rep.per_query_metrics.map (fun e => e.2.«recall».getD j 0)).sum /
            (rep.per_query_metrics.length : ℚ)) ∧
        rep.system_map.get? j =
          some ((rep.per_query_metrics.map (fun e => e.2.ap.getD j 0)).sum /
            (rep.per_query_metrics.length : ℚ)) := by
  intro max_k k_range resultFile groundtruth rep hcalc hn j hj
  obtain ⟨perQuery, uk, mk, hpq, _, _, hper, hsp, hsr, hsm, _, _, _⟩ :=
    calcMetrics_some_inv max_k k_range resultFile groundtruth rep hcalc
  rw [hper] at hn ⊢
  have hlen : ∀ y ∈ perQuery, y.2.precision.length = max_k ∧
      y.2.«recall».length = max_k ∧ y.2.ap.length = max_k := by
    intro y hy
    obtain ⟨x, _, _, hcq⟩ := perQuery_mem_inv max_k resultFile groundtruth perQuery hpq y hy
    obtain ⟨_, _, h1, h2, h3⟩ := computeQuery_some_inv max_k x.2.1 x.2.2 y.2 hcq
    exact ⟨h1, h2, h3⟩
  have hpos : perQuery.length > 0 := hn
  have hsys : systemArrays max_k perQuery =
      ((addInto max_k (perQuery.map (fun e => e.2.precision))).map (· / (perQuery.length : ℚ)),
       (addInto max_k (perQuery.map (fun e => e.2.«recall»))).map (· / (perQuery.length : ℚ)),
       (addInto max_k (perQuery.map (fun e => e.2.ap))).map (· / (perQuery.length : ℚ)),
       List.zipWith f1Formula
         ((addInto max_k (perQuery.map (fun e => e.2.precision))).map (· / (perQuery.length : ℚ)))
         ((addInto max_k (perQuery.map (fun e => e.2.«recall»))).map (· / (perQuery.length : ℚ)))) := by
    unfold systemArrays
    rw [if_pos hpos]
  refine ⟨?_, ?_, ?_⟩
  · rw [hsp, hsys]
    show ((addInto max_k (perQuery.map (fun e => e.2.precision))).map
      (· / (perQuery.length : ℚ))).get? j = _
    rw [List.get?_map, addInto_get? max_k _ j hj
      (by intro v hv; obtain ⟨e, he, rfl⟩ := List.mem_map.mp hv; exact (hlen e he).1)]
    simp only [Option.map_some', List.map_map]
    rfl
  · rw [hsr, hsys]
    show ((addInto max_k (perQuery.map (fun e => e.2.«recall»))).map
      (· / (perQuery.length : ℚ))).get? j = _
    rw [List.get?_map, addInto_get? max_k _ j hj
      (by intro v hv; obtain ⟨e, he, rfl⟩ := List.mem_map.mp hv; exact (hlen e he).2.1)]
    simp only [Option.map_some', List.map_map]
    rfl
  · rw [hsm, hsys]
    show ((addInto max_k (perQuery.map (fun e => e.2.ap))).map
      (· / (perQuery.length : ℚ))).get? j = _
    rw [List.get?_map, addInto_get? max_k _ j hj
      (by intro v hv; obtain ⟨e, he, rfl⟩ := List.mem_map.mp hv; exact (hlen e he).2.2)]
    simp only [Option.map_some', List.map_map]
    rfl

/-- Witness for C8 at a concrete input. -/
theorem claim_C8_witness :
    (calcMetrics 1 1 [((0 : ℕ), [(3 : ℕ)])] [(0, [5])] =
      some { system_precision := [0], system_recall := [0], system_map := [0],
             system_f1 := [0], used_k := [1], metrics_at_k := [(1, 0, 0, 0, 0)],
             per_query_metrics := [(0, ⟨[3], [5], [0], [0], [0]⟩)] }) ∧
    (0 < ({ system_precision := [0], system_recall := [0], system_map := [0],
            system_f1 := [0], used_k := [1], metrics_at_k := [(1, 0, 0, 0, 0)],
            per_query_metrics := [(0, ⟨[3], [5], [0], [0], [0]⟩)] } :
        Report ℕ ℕ).per_query_metrics.length ∧ 0 < 1) ∧
    (({ system_precision := [0], system_recall := [0], system_map := [0],
        system_f1 := [0], used_k := [1], metrics_at_k := [(1, 0, 0, 0, 0)],
        per_query_metrics := [(0, ⟨[3], [5], [0], [0], [0]⟩)] } :
          Report ℕ ℕ).system_precision.get? 0 =
        some ((({ system_precision := [0], system_recall := [0], system_map := [0],
                  system_f1 := [0], used_k := [1], metrics_at_k := [(1, 0, 0, 0, 0)],
                  per_query_metrics := [(0, ⟨[3], [5], [0], [0], [0]⟩)] } :
            Report ℕ ℕ).per_query_metrics.map (fun e => e.2.precision.getD 0 0)).sum /
          (({ system_precision := [0], system_recall := [0], system_map := [0],
              system_f1 := [0], used_k := [1], metrics_at_k := [(1, 0, 0, 0, 0)],
              per_query_metrics := [(0, ⟨[3], [5], [0], [0], [0]⟩)] } :
            Report ℕ ℕ).per_query_metrics.length : ℚ))) := by
  have hcalc : calcMetrics 1 1 [((0 : ℕ), [(3 : ℕ)])] [(0, [5])] =
      some { system_precision := [0], system_recall := [0], system_map := [0],
             system_f1 := [0], used_k := [1], metrics_at_k := [(1, 0, 0, 0, 0)],
             per_query_metrics := [(0, ⟨[3], [5], [0], [0], [0]⟩)] } := by
    simp [calcMetrics, scoredEntries, lookupQ, computeQuery, queryStep, apLoop, apLoopGo,
      interCount, systemArrays, addInto, f1Formula, usedK, rangeStep, metricsAtK,
      List.range_succ, List.dedup, List.mapM.loop]
  exact ⟨hcalc, ⟨by decide, by decide⟩,
    (claim_C8 1 1 [(0, [3])] [(0, [5])] _ hcalc (by decide) 0 (by decide)).1⟩

/-! ## The reporting-point list -/

lemma mem_rangeStep_two_mul (d max_k m : Nat) (hd : 0 < d) :
    m ∈ rangeStep (d * 2) (max_k + 1) d ↔
      ∃ i : Nat, m = (i + 2) * d ∧ (i + 2) * d ≤ max_k := by
  unfold rangeStep
  simp only [List.mem_map, List.mem_range]
  constructor
  · rintro ⟨i, hi, rfl⟩
    have hkey : (i + 1) * d ≤ max_k + 1 - d * 2 + d - 1 := (Nat.le_div_iff_mul_le hd).mp hi
    refine ⟨i, by ring, ?_⟩
    have hexp : (i + 2) * d = (i + 1) * d + d := by ring
    rcases le_or_lt (d * 2) (max_k + 1) with hc | hc
    · omega
    · exfalso
      have hA : d ≤ (i + 1) * d := Nat.le_mul_of_pos_left d (by omega)
      omega
  · rintro ⟨i, rfl, hle⟩
    have hexp : (i + 2) * d = (i + 1) * d + d := by ring
    have h2d : d * 2 ≤ (i + 2) * d := by
      have h2 : 2 * d ≤ (i + 2) * d := Nat.mul_le_mul_right d (by omega)
      omega
    refine ⟨i, ?_, by ring⟩
    rw [Nat.lt_iff_add_one_le, Nat.le_div_iff_mul_le hd]
    omega

lemma rangeStep_two_mul_sorted (d max_k : Nat) (hd : 0 < d) :
    (rangeStep (d * 2) (max_k + 1) d).Sorted (· < ·) := by
  unfold rangeStep
  apply List.Pairwise.map _ _ (List.pairwise_lt_range _)
  intro a b hab
  have : a * d < b * d := by
    have h1 : a * d + d ≤ b * d := by
      have := Nat.mul_le_mul_right d (by omega : a + 1 ≤ b)
      calc a * d + d = (a + 1) * d := by ring
        _ ≤ b * d := this
    omega
  omega

/-- Claim C7: with a positive `k_range` not exceeding `max_k`, the
selected reporting points are exactly the positive multiples of `k_range`
that do not exceed `max_k`, in increasing order, starting at `k_range`
(so `[5, 10]` for `max_k=10, k_range=5` and `[10,…,60]` for
`max_k=60, k_range=10`); and for each selected `k` the emitted snapshot is
the four system-wide arrays read at index `k-1`. -/
theorem claim_C7 :
    (∀ max_k k_range : Nat, 0 < k_range → k_range ≤ max_k →
      ∃ l, usedK max_k k_range = some l ∧ l.Sorted (· < ·) ∧
        (∀ m, m ∈ l ↔ (∃ j, 1 ≤ j ∧ m = j * k_range) ∧ m ≤ max_k) ∧
        l.head? = some k_range) ∧
    usedK 10 5 = some [5, 10] ∧
    usedK 60 10 = some [10, 20, 30, 40, 50, 60] ∧
    (∀ (uk : List Nat) (sp sr sm sf : List ℚ),
      (∀ k ∈ uk, k - 1 < sp.length ∧ k - 1 < sr.length ∧ k - 1 < sm.length ∧
        k - 1 < sf.length) →
      metricsAtK uk sp sr sm sf = some (uk.map (fun k =>
        (k, sp.getD (k - 1) 0, sr.getD (k - 1) 0, sm.getD (k - 1) 0, sf.getD (k - 1) 0)))) := by
  refine ⟨?_, by decide, by decide, ?_⟩
  · intro max_k k_range hd hkm
    rcases eq_or_lt_of_le hkm with rfl | hlt
    · refine ⟨[k_range], by simp [usedK], by simp, ?_, rfl⟩
      intro m
      simp only [List.mem_singleton]
      constructor
      · rintro rfl
        exact ⟨⟨1, le_refl 1, (one_mul _).symm⟩, le_refl _⟩
      · rintro ⟨⟨j, hj, rfl⟩, hle⟩
        have hj1 : j ≤ 1 := by
          by_contra hc
          have h2 : 2 * k_range ≤ j * k_range := Nat.mul_le_mul_right k_range (by omega)
          omega
        have : j = 1 := by omega
        rw [this, one_mul]
    · refine ⟨k_range :: rangeStep (k_range * 2) (max_k + 1) k_range,
        by simp [usedK, hlt, Nat.pos_iff_ne_zero.mp hd], ?_, ?_, rfl⟩
      · rw [List.sorted_cons]
        refine ⟨?_, rangeStep_two_mul_sorted k_range max_k hd⟩
        intro b hb
        obtain ⟨i, rfl, _⟩ := (mem_rangeStep_two_mul k_range max_k b hd).mp hb
        have h2 : 2 * k_range ≤ (i + 2) * k_range := Nat.mul_le_mul_right k_range (by omega)
        omega
      · intro m
        rw [List.mem_cons, mem_rangeStep_two_mul k_range max_k m hd]
        constructor
        · rintro (rfl | ⟨i, rfl, hle⟩)
          · exact ⟨⟨1, le_refl 1, (one_mul _).symm⟩, le_of_lt hlt⟩
          · exact ⟨⟨i + 2, by omega, rfl⟩, hle⟩
        · rintro ⟨⟨j, hj, rfl⟩, hle⟩
          rcases eq_or_lt_of_le hj with rfl | hj2
          · left
            rw [one_mul]
          · right
            refine ⟨j - 2, ?_, ?_⟩
            · congr 1
              omega
            · have : j - 2 + 2 = j := by omega
              rw [this]
              exact hle
  · intro uk sp sr sm sf h
    apply mapM_option_eq_map
    intro k hk
    obtain ⟨h1, h2, h3, h4⟩ := h k hk
    rw [get?_eq_some_getD sp 0 _ h1, get?_eq_some_getD sr 0 _ h2,
      get?_eq_some_getD sm 0 _ h3, get?_eq_some_getD sf 0 _ h4]
    rfl

/-- Witness for C7 at concrete inputs. -/
theorem claim_C7_witness :
    ((0 : Nat) < 5 ∧ (5 : Nat) ≤ 10 ∧
      (∃ l, usedK 10 5 = some l ∧ l.Sorted (· < ·) ∧
        (∀ m, m ∈ l ↔ (∃ j, 1 ≤ j ∧ m = j * 5) ∧ m ≤ 10) ∧ l.head? = some 5)) ∧
    ((∀ k ∈ [(1 : Nat)], k - 1 < [(0 : ℚ)].length ∧ k - 1 < [(0 : ℚ)].length ∧
        k - 1 < [(0 : ℚ)].length ∧ k - 1 < [(0 : ℚ)].length) ∧
      metricsAtK [(1 : Nat)] [(0 : ℚ)] [(0 : ℚ)] [(0 : ℚ)] [(0 : ℚ)] =
        some ([(1 : Nat)].map (fun k =>
          (k, [(0 : ℚ)].getD (k - 1) 0, [(0 : ℚ)].getD (k - 1) 0,
            [(0 : ℚ)].getD (k - 1) 0, [(0 : ℚ)].getD (k - 1) 0)))) :=
  ⟨⟨by decide, by decide, claim_C7.1 10 5 (by decide) (by decide)⟩,
    by decide, claim_C7.2.2.2 [1] [0] [0] [0] [0] (by decide)⟩

end CheckPrecisionRecall
